import Mathlib

/-!
Verification of the root-s3 client (src/src/lib.rs) against its specification.

The development shallowly embeds the request-rewriting interceptor
`add_root_auth` (lib.rs 390-439), the client constructors `Client::new`,
`Client::new_from_s3_credentials` and `get_s3_client` (lib.rs 89-136), and
a transition-system model of the bounded-concurrency gate (the tokio
semaphore of capacity `MAX_CONCURRENT`, lib.rs 22 and 146-163).

HTTP requests are modelled by their URI string and a header list; the
behaviour of the external `http`/`aws-smithy` URI type (`to_string`,
`path()`, `query()`, `set_uri`, `Headers::append`) is modelled by explicit
Lean functions over the URI string, documented at each definition.
-/

/-- Models Rust `str::split(c)`: splits a character list at every occurrence
of `c`; the result is always nonempty and its first element is the prefix
before the first `c`. -/
def splitChar (c : Char) : List Char → List (List Char)
  | [] => [[]]
  | x :: xs =>
    if x = c then [] :: splitChar c xs
    else
      match splitChar c xs with
      | [] => [[x]]
      | y :: ys => (x :: y) :: ys

/-- Models Rust `str::rsplit_once(c)` on character lists: splits around the
last occurrence of `c`, returning `none` when `c` does not occur. -/
def rsplitOnceAux (c : Char) : List Char → Option (List Char × List Char)
  | [] => none
  | x :: xs =>
    match rsplitOnceAux c xs with
    | some (l, r) => some (x :: l, r)
    | none => if x = c then some ([], xs) else none

/-- Scans a character list for the first occurrence of the substring `://`
and returns what follows it (used to locate the end of a URI scheme, as the
`http` crate does when parsing `scheme://authority/path`). -/
def splitSchemeAux : List Char → Option (List Char)
  | c1 :: c2 :: c3 :: rest =>
    if c1 = ':' ∧ c2 = '/' ∧ c3 = '/' then some rest
    else splitSchemeAux (c2 :: c3 :: rest)
  | _ => none

/-- The path-and-query part of a URI string: for `scheme://authority/p?q`
this is `/p?q` (the authority extends to the first `/` or `?`); a string
without `://` is already path-and-query (relative form). Models the
decomposition performed by the `http` crate when the request URI is built. -/
def pathAndQueryList (s : List Char) : List Char :=
  match splitSchemeAux s with
  | some rest => rest.dropWhile (fun c => c != '/' && c != '?')
  | none => s

/-- Models `http::Uri::path()` on the URI string: the path-and-query part
up to (excluding) the first `?`; an empty path reads as `/`. -/
def uriPath (s : String) : String :=
  let p := (pathAndQueryList s.data).takeWhile (fun c => c != '?')
  if p.isEmpty then ("/") else ⟨p⟩

/-- Models `http::Uri::query()` on the URI string: everything after the
first `?` of the path-and-query part, `none` when there is no `?`. -/
def uriQuery (s : String) : Option String :=
  match (pathAndQueryList s.data).dropWhile (fun c => c != '?') with
  | [] => none
  | _ :: q => some (String.mk q)

/-- Characters the `http` crate accepts inside a URI (RFC 3986 characters;
`Char.ofNat 39` is the single-quote character). Whitespace and control
characters are rejected, which is the failure mode of `Request::set_uri`
that the interceptor can encounter. -/
def uriCharAllowed (c : Char) : Bool :=
  c.isAlphanum || "-._~:/?#[]@!$&()*+,;=%".data.contains c || c = Char.ofNat 39

/-- Models the validity check performed when a string is converted back
into a `http::Uri` by `Request::set_uri`: nonempty and all characters
URI-legal. -/
def uriWellFormed (s : String) : Bool :=
  !s.data.isEmpty && s.data.all uriCharAllowed

/-- The per-client proxy authentication context (lib.rs 37-41). -/
structure RootConfig where
  api_key : String
  org_id : Int
deriving DecidableEq, Repr

/-- An outbound HTTP request (`aws_smithy_runtime_api::http::Request`)
modelled by its URI string and its header list; `Headers::append` is
modelled by appending a pair at the end of the list, preserving
duplicates. -/
structure Request where
  uri : String
  headers : List (String × String)
deriving DecidableEq, Repr

/-- Models `Request::set_uri(new_uri)` with the error DISCARDED, exactly as
the source writes `let _ = req.set_uri(new_uri);` (lib.rs 436): when the
string is not a well-formed URI the request keeps its previous URI. -/
def setUri (req : Request) (new_uri : String) : Request :=
  if uriWellFormed new_uri then { req with uri := new_uri } else req

/-- The tenant-scoping path constructed by the interceptor via
`format!("/api/v1/organisations/{}/projects/{}/s3", org_id, project_id)`
(lib.rs 417-421). -/
def apiPath (org_id project_id : Int) : String :=
  "/api/v1/organisations/" ++ toString org_id ++ "/projects/" ++
    toString project_id ++ "/s3"

/-- The URI string the interceptor constructs from the request URI
(lib.rs 404-434): split the URI string at `?` and keep the part before it,
split that at its last `/` (`none` models the panic of `.unwrap()` when no
`/` exists), then reassemble prefix ++ tenant path ++ original path (the
original path only when it is not exactly `/`) ++ original query. -/
def rewrittenUri (req_uri : String) (config : RootConfig) (project_id : Int) :
    Option String :=
  let base_url := (splitChar '?' req_uri.data).headD []
  match rsplitOnceAux '/' base_url with
  | none => none
  | some (url, _) =>
    let original_path := uriPath req_uri
    let path0 := apiPath config.org_id project_id
    let path := if original_path ≠ "/" then path0 ++ original_path else path0
    let new_uri := String.mk url ++ path
    match uriQuery req_uri with
    | some query => some (new_uri ++ "?" ++ query)
    | none => some new_uri

/-- The interceptor `add_root_auth` (lib.rs 390-439). Returns `none` when
the Rust code panics (the `.unwrap()` on `rsplit_once`), otherwise the
mutated request: no-op when the config or the project id is absent, else
append the `x-api-key` header and install the rewritten URI (installation
failure being silently discarded, as in the source). -/
def add_root_auth (req : Request) (config : Option RootConfig)
    (project_id : Option Int) : Option Request :=
  match config with
  | none => some req
  | some config =>
    match project_id with
    | none => some req
    | some pid =>
      let req1 : Request :=
        { req with headers := req.headers ++ [("x-api-key", config.api_key)] }
      match rewrittenUri req1.uri config pid with
      | none => none
      | some new_uri => some (setUri req1 new_uri)

/-- The raw direct-mode credential bundle (lib.rs 69-75). -/
structure S3Credentials where
  access_key_id : String
  secret_access_key : String
  session_token : Option String
  expiration : Option String
  region : String
deriving DecidableEq, Repr

/-- Models `aws_credential_types::Credentials` as built by
`Credentials::new(access_key_id, secret_access_key, session_token,
expires_after, provider_name)`; the expiry is kept abstract as a string. -/
structure Credentials where
  access_key_id : String
  secret_access_key : String
  session_token : Option String
  expires_after : Option String
  provider_name : String
deriving DecidableEq, Repr

/-- Models the configured `aws_sdk_s3::Client`: the pieces of `SdkConfig`
that `get_s3_client` sets (endpoint url, region, credentials provider),
lib.rs 127-133. -/
structure AwsS3Client where
  endpoint_url : String
  region : String
  credentials : Credentials
deriving DecidableEq, Repr

/-- The error type (lib.rs 43-67); only the variants relevant to
construction and gate acquisition are modelled, the per-operation service
errors being opaque wrappers. -/
inductive Error where
  | InvalidUrl : Error
  | SemaphoreError : Error
deriving DecidableEq, Repr

/-- `MAX_CONCURRENT` (lib.rs 22). -/
def MAX_CONCURRENT : Nat := 20

/-- The client (lib.rs 26-35): the configured S3 client, the optional
proxy config, and the concurrency gate modelled by its fixed capacity
(`Arc<Semaphore>` whose permit count is the gate state, see the gate
transition system below). -/
structure Client where
  s3_client : AwsS3Client
  config : Option RootConfig
  semaphoreCapacity : Nat
deriving DecidableEq, Repr

/-- `get_s3_client` (lib.rs 121-136): builds the credentials — passing
`None, None, ""` for session token, expiry and provider name regardless of
the supplied bundle — and an `SdkConfig` with the given endpoint url and
the hardcoded region `weur`. The Rust function returns `anyhow::Result`
but its body has no fallible step, so it always returns `Ok`. -/
def get_s3_client (url : String) (credentials : Option S3Credentials) :
    Except String AwsS3Client :=
  let cred : Credentials :=
    match credentials with
    | some cred => ⟨cred.access_key_id, cred.secret_access_key, none, none, ""⟩
    | none => ⟨"", "", none, none, ""⟩
  Except.ok { endpoint_url := url, region := "weur", credentials := cred }

/-- `Client::new` (lib.rs 89-104): proxy-mode constructor; an error from
`get_s3_client` is mapped to `Error::InvalidUrl`. -/
def Client.new (url : String) (api_key : String) (org_id : Int) :
    Except Error Client :=
  match get_s3_client url none with
  | .error _ => .error .InvalidUrl
  | .ok s3 =>
    .ok { s3_client := s3, config := some ⟨api_key, org_id⟩,
          semaphoreCapacity := MAX_CONCURRENT }

/-- `Client::new_from_s3_credentials` (lib.rs 106-118): direct-mode
constructor. -/
def Client.new_from_s3_credentials (url : String)
    (credentials : S3Credentials) : Except Error Client :=
  match get_s3_client url (some credentials) with
  | .error _ => .error .InvalidUrl
  | .ok s3 =>
    .ok { s3_client := s3, config := none,
          semaphoreCapacity := MAX_CONCURRENT }

/-!
The concurrency gate. Each operation method (e.g. `Client::create_bucket`,
lib.rs 139-163) acquires one semaphore permit before sending and holds it
in the scoped `_permit` guard, which is dropped — releasing the permit —
when the method returns, on the success path and on the error path alike.
This is modelled as a transition system: `n` tasks each move from
`pending` to `inflight` (acquiring a permit, only possible when one is
available) and from `inflight` to `finished ok` (releasing the permit,
whether the send succeeded or failed).
-/

/-- Phase of one operation call in the gate model. -/
inductive Phase where
  | pending : Phase
  | inflight : Phase
  | finished : Bool → Phase
deriving DecidableEq, Repr

/-- Whether a task currently holds a gate slot. -/
def Phase.isInflight : Phase → Bool
  | .inflight => true
  | _ => false

/-- State of the gate: the phase of each task and the available permits. -/
structure GateState where
  tasks : List Phase
  permits : Nat
deriving DecidableEq, Repr

/-- Number of operations currently holding a slot. -/
def inflightCount (s : GateState) : Nat :=
  s.tasks.countP Phase.isInflight

/-- Initial state: `n` pending operation calls, all `MAX_CONCURRENT`
permits available (`Semaphore::new(MAX_CONCURRENT)`, lib.rs 102/116). -/
def initGate (n : Nat) : GateState :=
  ⟨List.replicate n Phase.pending, MAX_CONCURRENT⟩

/-- One step of the gate: a pending task acquires a permit (possible only
when a permit is available — `semaphore.acquire().await` suspends
otherwise), or an in-flight task finishes with outcome `ok` and its
scoped permit is dropped, restoring one permit. -/
inductive GateStep : GateState → GateState → Prop where
  | acquire (s : GateState) (i : Nat) (h : s.tasks.get? i = some .pending)
      (hp : 0 < s.permits) :
      GateStep s ⟨s.tasks.set i .inflight, s.permits - 1⟩
  | finish (s : GateState) (i : Nat) (ok : Bool)
      (h : s.tasks.get? i = some .inflight) :
      GateStep s ⟨s.tasks.set i (.finished ok), s.permits + 1⟩

/-- States reachable from the initial state with `n` tasks. -/
def GateReachable (n : Nat) (s : GateState) : Prop :=
  Relation.ReflTransGen GateStep (initGate n) s

/-- The textual query part of a URI with optional query `q`: `?q` when
present, empty otherwise (used to state how request URIs decompose). -/
def qpart : Option String → String
  | some x => "?" ++ x
  | none => ""

/-! Helper lemmas about the string utilities. -/

theorem takeWhile_append_all {p : Char → Bool} {l1 l2 : List Char}
    (h : ∀ c ∈ l1, p c = true) :
    (l1 ++ l2).takeWhile p = l1 ++ l2.takeWhile p := by
  induction l1 with
  | nil => simp
  | cons x xs ih =>
    simp only [List.cons_append, List.takeWhile_cons, h x (by simp)]
    rw [ih fun c hc => h c (by simp [hc])]
    simp

theorem takeWhile_all {p : Char → Bool} {l : List Char}
    (h : ∀ c ∈ l, p c = true) : l.takeWhile p = l := by
  have := @takeWhile_append_all p l [] h
  simpa using this

theorem dropWhile_append_all {p : Char → Bool} {l1 l2 : List Char}
    (h : ∀ c ∈ l1, p c = true) :
    (l1 ++ l2).dropWhile p = l2.dropWhile p := by
  induction l1 with
  | nil => simp
  | cons x xs ih =>
    simp only [List.cons_append, List.dropWhile_cons, h x (by simp)]
    exact ih fun c hc => h c (by simp [hc])

theorem splitChar_ne_nil (c : Char) (l : List Char) : splitChar c l ≠ [] := by
  induction l with
  | nil => simp [splitChar]
  | cons x xs ih =>
    by_cases hx : x = c
    · simp [splitChar, hx]
    · cases hs : splitChar c xs with
      | nil => exact absurd hs ih
      | cons y ys => simp [splitChar, hx, hs]

theorem splitChar_headD (c : Char) (l : List Char) :
    (splitChar c l).headD [] = l.takeWhile (fun x => x != c) := by
  induction l with
  | nil => simp [splitChar]
  | cons x xs ih =>
    by_cases hx : x = c
    · subst hx
      simp [splitChar, List.takeWhile_cons]
    · cases hs : splitChar c xs with
      | nil => exact absurd hs (splitChar_ne_nil c xs)
      | cons y ys =>
        rw [hs] at ih
        simp only [List.headD_cons] at ih
        simp [splitChar, hx, hs, List.takeWhile_cons, bne_iff_ne, ih]

theorem rsplitOnceAux_of_not_mem (c : Char) (l : List Char) (h : c ∉ l) :
    rsplitOnceAux c l = none := by
  induction l with
  | nil => rfl
  | cons x xs ih =>
    have hx : ¬ x = c := fun he => h (he ▸ List.mem_cons_self x xs)
    have hxs : c ∉ xs := fun hm => h (List.mem_cons_of_mem _ hm)
    simp [rsplitOnceAux, ih hxs, hx]

theorem rsplitOnceAux_last (c : Char) (a b : List Char) (h : c ∉ b) :
    rsplitOnceAux c (a ++ c :: b) = some (a, b) := by
  induction a with
  | nil => simp [rsplitOnceAux, rsplitOnceAux_of_not_mem c b h]
  | cons x xs ih => simp [rsplitOnceAux, ih]

theorem rsplitOnceAux_isSome_iff (c : Char) (l : List Char) :
    (rsplitOnceAux c l).isSome = true ↔ c ∈ l := by
  induction l with
  | nil => simp [rsplitOnceAux]
  | cons x xs ih =>
    cases hs : rsplitOnceAux c xs with
    | some p =>
      rw [hs] at ih
      simp only [Option.isSome_some, true_iff] at ih
      simp [rsplitOnceAux, hs, ih]
    | none =>
      rw [hs] at ih
      simp only [Option.isSome_none, false_iff] at ih
      by_cases hx : x = c
      · subst hx
        simp [rsplitOnceAux, hs]
      · simp [rsplitOnceAux, hs, hx, ih, Ne.symm hx]

/-! Characters of rendered integers (the `org_id` and `project_id` that the
interceptor interpolates into the tenant path) are digits or a minus sign,
hence URI-legal. -/

theorem digitChar_isDigit (n : Nat) (h : n < 10) :
    (Nat.digitChar n).isDigit = true := by
  interval_cases n <;> decide

theorem toDigitsCore_digits (fuel n : Nat) (acc : List Char)
    (hacc : ∀ c ∈ acc, c.isDigit = true) :
    ∀ c ∈ Nat.toDigitsCore 10 fuel n acc, c.isDigit = true := by
  induction fuel generalizing n acc with
  | zero => simpa [Nat.toDigitsCore] using hacc
  | succ fuel ih =>
    intro c hc
    have hd : ∀ c ∈ Nat.digitChar (n % 10) :: acc, c.isDigit = true := by
      intro c hc
      rcases List.mem_cons.mp hc with h | h
      · exact h ▸ digitChar_isDigit _ (Nat.mod_lt _ (by norm_num))
      · exact hacc c h
    unfold Nat.toDigitsCore at hc
    by_cases hz : n / 10 = 0
    · rw [if_pos hz] at hc
      exact hd c hc
    · rw [if_neg hz] at hc
      exact ih (n / 10) _ hd c hc

theorem natRepr_digits (n : Nat) : ∀ c ∈ (Nat.repr n).data, c.isDigit = true := by
  intro c hc
  refine toDigitsCore_digits (n + 1) n [] (by simp) c ?_
  simpa [Nat.repr, Nat.toDigits, List.asString] using hc

theorem intToString_chars (i : Int) :
    ∀ c ∈ (toString i).data, c.isDigit = true ∨ c = '-' := by
  intro c hc
  cases i with
  | ofNat m =>
    left
    exact natRepr_digits m c (by simpa [toString, Int.repr] using hc)
  | negSucc m =>
    have : c ∈ ("-" ++ Nat.repr (m + 1)).data := by
      simpa [toString, Int.repr] using hc
    rw [String.data_append] at this
    rcases List.mem_append.mp this with h | h
    · right
      simpa using h
    · left
      exact natRepr_digits (m + 1) c h

theorem isDigit_uriCharAllowed {c : Char} (h : c.isDigit = true) :
    uriCharAllowed c = true := by
  simp [uriCharAllowed, Char.isAlphanum, h]

theorem intToString_allowed (i : Int) :
    (toString i).data.all uriCharAllowed = true := by
  rw [List.all_eq_true]
  intro c hc
  rcases intToString_chars i c hc with h | h
  · exact isDigit_uriCharAllowed h
  · subst h
    decide

theorem apiPath_allowed (org pid : Int) :
    (apiPath org pid).data.all uriCharAllowed = true := by
  simp only [apiPath, String.data_append, List.all_append, Bool.and_eq_true]
  exact ⟨⟨⟨⟨by decide, intToString_allowed org⟩, by decide⟩,
    intToString_allowed pid⟩, by decide⟩

theorem intToString_no_slash_no_q (i : Int) :
    ∀ c ∈ (toString i).data, c ≠ '/' ∧ c ≠ '?' := by
  intro c hc
  rcases intToString_chars i c hc with h | h
  · constructor <;> rintro rfl <;> simp at h
  · subst h
    decide

/-! Decomposition lemmas for URIs of the canonical request shape
`https://<authority><path>[?<query>]`. -/

theorem strMk_data (s : String) : String.mk s.data = s := by
  cases s
  rfl

theorem strMk_append (a b : List Char) :
    String.mk (a ++ b) = String.mk a ++ String.mk b := rfl

theorem splitSchemeAux_https (t : List Char) :
    splitSchemeAux ("https://".data ++ t) = some t := by
  simp [splitSchemeAux, String.data]

theorem qpart_data_no_q_takeWhile (q : Option String) :
    ((qpart q).data).takeWhile (fun c => c != '?') = [] := by
  cases q with
  | none => rfl
  | some x =>
    obtain ⟨d⟩ := x
    rfl

theorem qpart_data_dropWhile (q : Option String) :
    ((qpart q).data).dropWhile (fun c => c != '?') = (qpart q).data := by
  cases q with
  | none => rfl
  | some x =>
    obtain ⟨d⟩ := x
    rfl

theorem pathAndQueryList_https (t : List Char) :
    pathAndQueryList ("https://".data ++ t) =
      t.dropWhile (fun c => c != '/' && c != '?') := by
  unfold pathAndQueryList
  rw [splitSchemeAux_https]

theorem path_eq_root_iff (p1 p2 : List Char) :
    String.mk (p1 ++ '/' :: p2) = "/" ↔ p1 = [] ∧ p2 = [] := by
  constructor
  · intro h
    have hl : p1 ++ '/' :: p2 = ['/'] := by
      have := congrArg String.data h
      simpa using this
    cases p1 with
    | nil => simpa using hl
    | cons a as =>
      exfalso
      have := congrArg List.length hl
      simp at this
  · rintro ⟨rfl, rfl⟩
    rfl

/-- How the interceptor decomposes a canonical request URI
`https://<authority><path>[?query]`: the full rewriting equation, with the
path split at its last `/` as `p1 ++ '/' :: p2`. -/
theorem rewrittenUri_shaped (uriStr host : String) (p1 p2 : List Char)
    (q : Option String) (cfg : RootConfig) (pid : Int)
    (hdata : uriStr.data =
      "https://".data ++ (host.data ++ ((p1 ++ '/' :: p2) ++ (qpart q).data)))
    (hhost : ∀ c ∈ host.data, c ≠ '/' ∧ c ≠ '?')
    (hp1 : ∀ c ∈ p1, c ≠ '?')
    (hp2 : ∀ c ∈ p2, c ≠ '/' ∧ c ≠ '?')
    (hstart : p1 = [] ∨ p1.head? = some '/') :
    rewrittenUri uriStr cfg pid =
      some (String.mk ("https://".data ++ host.data ++ p1) ++
        apiPath cfg.org_id pid ++
        (if p1 = [] ∧ p2 = [] then ("") else String.mk (p1 ++ '/' :: p2)) ++
        qpart q) := by
  have hQ1 : ∀ c ∈ "https://".data, (c != '?') = true := by decide
  have hQhost : ∀ c ∈ host.data, (c != '?') = true := by
    intro c hc
    simp [bne_iff_ne, (hhost c hc).2]
  have hQpath : ∀ c ∈ p1 ++ '/' :: p2, (c != '?') = true := by
    intro c hc
    rcases List.mem_append.mp hc with h | h
    · simp [bne_iff_ne, hp1 c h]
    · rcases List.mem_cons.mp h with rfl | h
      · decide
      · simp [bne_iff_ne, (hp2 c h).2]
  have hbase : (splitChar '?' uriStr.data).headD [] =
      ("https://".data ++ host.data ++ p1) ++ '/' :: p2 := by
    rw [splitChar_headD, hdata, takeWhile_append_all hQ1,
      takeWhile_append_all hQhost, takeWhile_append_all hQpath,
      qpart_data_no_q_takeWhile]
    simp
  have hpq : pathAndQueryList uriStr.data = (p1 ++ '/' :: p2) ++ (qpart q).data := by
    rw [hdata, pathAndQueryList_https]
    have hall : ∀ c ∈ host.data, ((fun c => c != '/' && c != '?') c) = true := by
      intro c hc
      simp [bne_iff_ne, (hhost c hc).1, (hhost c hc).2]
    rw [dropWhile_append_all hall]
    rcases hstart with rfl | hh
    · simp [List.dropWhile_cons]
    · cases p1 with
      | nil => simp [List.dropWhile_cons]
      | cons a as =>
        simp only [List.head?_cons, Option.some.injEq] at hh
        subst hh
        simp [List.dropWhile_cons]
  have hpath : uriPath uriStr = String.mk (p1 ++ '/' :: p2) := by
    unfold uriPath
    rw [hpq, takeWhile_append_all hQpath, qpart_data_no_q_takeWhile]
    simp [List.isEmpty_iff]
  have hquery : uriQuery uriStr = q := by
    unfold uriQuery
    have hall : ∀ c ∈ p1 ++ '/' :: p2, ((fun c => c != '?') c) = true := hQpath
    rw [hpq, dropWhile_append_all hall, qpart_data_dropWhile]
    cases q with
    | none => rfl
    | some x =>
      show (match ("?" ++ x).data with
        | [] => none
        | _ :: q => some (String.mk q)) = some x
      rw [String.data_append]
      simp [String.data, strMk_data]
  simp only [rewrittenUri, hbase]
  rw [rsplitOnceAux_last '/' _ p2 (fun hm => (hp2 '/' hm).1 rfl)]
  simp only [hpath, hquery]
  by_cases hroot : p1 = [] ∧ p2 = []
  · rcases hroot with ⟨rfl, rfl⟩
    rw [if_neg (by simp [path_eq_root_iff])]
    cases q with
    | none =>
      simp [qpart, String.append_empty]
    | some x =>
      simp [qpart, String.append_assoc]
  · rw [if_pos (by
      intro h
      exact hroot ((path_eq_root_iff p1 p2).mp h))]
    cases q with
    | none =>
      simp [qpart, String.append_empty, String.append_assoc, hroot]
    | some x =>
      simp [qpart, String.append_assoc, hroot]

/-! Path of an already-rewritten URI (needed to state that the final path
starts with the tenant prefix). -/

theorem apiPath_data_cons (org pid : Int) :
    ∃ t, (apiPath org pid).data = '/' :: t := by
  simp only [apiPath, String.data_append]
  exact ⟨_, rfl⟩

theorem apiPath_no_q (org pid : Int) :
    ∀ c ∈ (apiPath org pid).data, c ≠ '?' := by
  intro c hc
  simp only [apiPath, String.data_append, List.mem_append] at hc
  rcases hc with ((((h | h) | h) | h) | h)
  · exact (by decide : ∀ x ∈ ("/api/v1/organisations/" : String).data, x ≠ '?') c h
  · exact (intToString_no_slash_no_q org c h).2
  · exact (by decide : ∀ x ∈ ("/projects/" : String).data, x ≠ '?') c h
  · exact (intToString_no_slash_no_q pid c h).2
  · exact (by decide : ∀ x ∈ ("/s3" : String).data, x ≠ '?') c h

theorem uriPath_rewritten (host tail : String) (org pid : Int)
    (hhost : ∀ c ∈ host.data, c ≠ '/' ∧ c ≠ '?')
    (htail : ∀ c ∈ tail.data, c ≠ '?') :
    uriPath ("https://" ++ host ++ (apiPath org pid ++ tail)) =
      apiPath org pid ++ tail := by
  unfold uriPath
  have hd : ("https://" ++ host ++ (apiPath org pid ++ tail)).data
      = "https://".data ++ (host.data ++ ((apiPath org pid).data ++ tail.data)) := by
    simp [String.data_append]
  rw [hd, pathAndQueryList_https]
  have hall : ∀ c ∈ host.data, ((fun c => c != '/' && c != '?') c) = true := by
    intro c hc
    simp [bne_iff_ne, (hhost c hc).1, (hhost c hc).2]
  rw [dropWhile_append_all hall]
  obtain ⟨t, ht⟩ := apiPath_data_cons org pid
  have hstop : ((apiPath org pid).data ++ tail.data).dropWhile
      (fun c => c != '/' && c != '?') = (apiPath org pid).data ++ tail.data := by
    rw [ht, List.cons_append, List.dropWhile_cons]
    simp
  rw [hstop]
  have hnq : ∀ c ∈ (apiPath org pid).data ++ tail.data, (c != '?') = true := by
    intro c hc
    rcases List.mem_append.mp hc with h | h
    · simp [bne_iff_ne, apiPath_no_q org pid c h]
    · simp [bne_iff_ne, htail c h]
  rw [takeWhile_all hnq]
  have hne : (apiPath org pid).data ++ tail.data ≠ [] := by
    rw [ht]
    simp
  rw [if_neg (by simpa [List.isEmpty_iff] using hne)]
  rw [← String.data_append, strMk_data]

/-! Counting lemmas for the concurrency gate. -/

theorem countP_set_incr {α : Type} {l : List α} {i : Nat} {a : α} (b : α)
    (p : α → Bool) (h : l.get? i = some a) (ha : p a = false) (hb : p b = true) :
    (l.set i b).countP p = l.countP p + 1 := by
  induction l generalizing i with
  | nil => simp at h
  | cons x xs ih =>
    cases i with
    | zero =>
      simp only [List.get?] at h
      injection h with h
      subst h
      simp [List.set, List.countP_cons, ha, hb]
    | succ n =>
      simp only [List.get?] at h
      simp only [List.set, List.countP_cons, ih h]
      omega

theorem countP_set_decr {α : Type} {l : List α} {i : Nat} {a : α} (b : α)
    (p : α → Bool) (h : l.get? i = some a) (ha : p a = true) (hb : p b = false) :
    (l.set i b).countP p + 1 = l.countP p := by
  induction l generalizing i with
  | nil => simp at h
  | cons x xs ih =>
    cases i with
    | zero =>
      simp only [List.get?] at h
      injection h with h
      subst h
      simp [List.set, List.countP_cons, ha, hb]
    | succ n =>
      simp only [List.get?] at h
      simp only [List.set, List.countP_cons, ← ih h]
      omega

theorem countP_replicate_zero {α : Type} (n : Nat) (a : α) (p : α → Bool)
    (ha : p a = false) : (List.replicate n a).countP p = 0 := by
  induction n with
  | zero => rfl
  | succ n ih => simp [List.replicate, List.countP_cons, ha, ih]

/-- The gate invariant: in every reachable state, the number of in-flight
operations plus the available permits equals the capacity. -/
theorem gate_invariant (n : Nat) (s : GateState) (h : GateReachable n s) :
    inflightCount s + s.permits = MAX_CONCURRENT := by
  induction h with
  | refl =>
    simp [initGate, inflightCount, countP_replicate_zero n Phase.pending
      Phase.isInflight rfl]
  | tail hr hstep ih =>
    cases hstep with
    | acquire i hi hp =>
      have hc := countP_set_incr Phase.inflight
        Phase.isInflight hi rfl rfl
      simp only [inflightCount] at ih ⊢
      rw [hc]
      omega
    | finish i ok hi =>
      have hc := countP_set_decr (Phase.finished ok)
        Phase.isInflight hi rfl rfl
      simp only [inflightCount] at ih ⊢
      omega

/-! Assembly helpers for the claim-level theorems. -/

theorem str_eq_of_data {a b : String} (h : a.data = b.data) : a = b := by
  cases a
  cases b
  exact congrArg String.mk h

theorem strMk_data_eq (l : List Char) : (String.mk l).data = l := rfl

theorem setUri_ok (req : Request) (u : String) (h : uriWellFormed u = true) :
    setUri req u = { req with uri := u } := by
  simp [setUri, h]

theorem setUri_fail (req : Request) (u : String) (h : uriWellFormed u = false) :
    setUri req u = req := by
  simp [setUri, h]

/-- Unfolding equation for the interceptor in proxy mode with a project id
present, on an explicit request. -/
theorem add_root_auth_proxy (uri : String) (hdrs : List (String × String))
    (cfg : RootConfig) (pid : Int) :
    add_root_auth ⟨uri, hdrs⟩ (some cfg) (some pid) =
      match rewrittenUri uri cfg pid with
      | none => none
      | some u => some (setUri ⟨uri, hdrs ++ [("x-api-key", cfg.api_key)]⟩ u) := rfl

theorem add_root_auth_no_cfg (req : Request) (pid : Option Int) :
    add_root_auth req none pid = some req := rfl

theorem add_root_auth_no_pid (req : Request) (cfg : Option RootConfig) :
    add_root_auth req cfg none = some req := by
  cases cfg <;> rfl

/-- Specialisation: when the rewriting succeeds with value `u`, the
interceptor appends the header and installs `u` (subject to the silent
`set_uri` well-formedness check). -/
theorem add_root_auth_proxy_some (uri : String) (hdrs : List (String × String))
    (cfg : RootConfig) (pid : Int) (u : String)
    (h : rewrittenUri uri cfg pid = some u) :
    add_root_auth ⟨uri, hdrs⟩ (some cfg) (some pid) =
      some (setUri ⟨uri, hdrs ++ [("x-api-key", cfg.api_key)]⟩ u) := by
  rw [add_root_auth_proxy, h]

theorem allowed_append {a b : List Char} (ha : a.all uriCharAllowed = true)
    (hb : b.all uriCharAllowed = true) :
    (a ++ b).all uriCharAllowed = true := by
  simp [List.all_append, ha, hb]

theorem uriWellFormed_mk {l : List Char} (hne : l ≠ [])
    (h : l.all uriCharAllowed = true) :
    uriWellFormed (String.mk l) = true := by
  simp [uriWellFormed, strMk_data_eq, h, hne]

theorem uriWellFormed_append {a b : String} (ha : uriWellFormed a = true)
    (hb : b.data.all uriCharAllowed = true) :
    uriWellFormed (a ++ b) = true := by
  simp only [uriWellFormed, String.data_append, Bool.and_eq_true,
    Bool.not_eq_true', List.isEmpty_eq_false, List.all_append] at *
  exact ⟨fun hx => ha.1 (List.append_eq_nil.mp hx).1, ha.2, hb⟩

/-! The claims. -/

/-- C4: for every call made without an AuthContext (direct mode), and for
every proxy-mode call made without a project id, the interceptor returns
the request completely unmodified — URI and header set byte-for-byte
identical (lib.rs 391-397). -/
theorem C4_noop_without_config_or_project (req : Request)
    (cfg : Option RootConfig) (pid : Option Int)
    (h : cfg = none ∨ pid = none) :
    add_root_auth req cfg pid = some req := by
  rcases h with rfl | rfl
  · rfl
  · cases cfg with
    | none => rfl
    | some c => rfl

/-- Witness for C4: a direct-mode call and a proxy call without a project
id both leave the concrete request untouched. -/
theorem C4_noop_witness :
    add_root_auth ⟨"https://host/b1", [("h", "v")]⟩ none (some 5) =
      some ⟨"https://host/b1", [("h", "v")]⟩ :=
  C4_noop_without_config_or_project ⟨"https://host/b1", [("h", "v")]⟩ none
    (some 5) (Or.inl rfl)

/-- C10: in proxy mode with a project id, `add_root_auth` returns normally
exactly when the URI string before any `?` contains a `/`; when it
contains none, the `.unwrap()` on `rsplit_once` (lib.rs 409) panics,
modelled as `none`. -/
theorem C10_panic_iff_no_slash (req : Request) (cfg : RootConfig) (pid : Int) :
    (add_root_auth req (some cfg) (some pid)).isSome = true ↔
      '/' ∈ (splitChar '?' req.uri.data).headD [] := by
  obtain ⟨uri, hdrs⟩ := req
  rw [add_root_auth_proxy, ← rsplitOnceAux_isSome_iff]
  simp only [rewrittenUri]
  cases hs : rsplitOnceAux '/' ((splitChar '?' uri.data).headD []) with
  | none => simp [hs]
  | some p =>
    obtain ⟨a, b⟩ := p
    cases hq : uriQuery uri with
    | none => simp [hs, hq]
    | some x => simp [hs, hq]

/-- C3: a proxy-mode call whose original request path is exactly `/`
(URI `https://<host>/`) is rewritten to exactly the tenant path
`/api/v1/organisations/<org>/projects/<pid>/s3`, the root `/` not being
re-appended (lib.rs 424-426), with the `x-api-key` header appended. -/
theorem C3_root_path_rewrite (host api_key : String) (org pid : Int)
    (hdrs : List (String × String))
    (hhost : ∀ c ∈ host.data, c ≠ '/' ∧ c ≠ '?')
    (hhostA : host.data.all uriCharAllowed = true) :
    add_root_auth ⟨"https://" ++ host ++ "/", hdrs⟩ (some ⟨api_key, org⟩)
        (some pid) =
      some ⟨"https://" ++ host ++ apiPath org pid,
        hdrs ++ [("x-api-key", api_key)]⟩ := by
  have hrw := rewrittenUri_shaped ("https://" ++ host ++ "/") host [] [] none
    ⟨api_key, org⟩ pid (by simp [String.data_append, qpart]) hhost (by simp)
    (by simp) (Or.inl rfl)
  have hrw2 : rewrittenUri ("https://" ++ host ++ "/") ⟨api_key, org⟩ pid =
      some ("https://" ++ host ++ apiPath org pid) := by
    rw [hrw]
    refine congrArg some (str_eq_of_data ?_)
    simp [String.data_append, strMk_data_eq, qpart]
  rw [add_root_auth_proxy_some _ _ _ _ _ hrw2]
  have hwf : uriWellFormed ("https://" ++ host ++ apiPath org pid) = true := by
    refine uriWellFormed_append (uriWellFormed_append (by decide) hhostA)
      (apiPath_allowed org pid)
  rw [setUri_ok _ _ hwf]

/-- Witness for C3 at the spec's example: org 7, project 42, api key
`abc`, original URI `https://host/`. -/
theorem C3_root_path_witness :
    add_root_auth ⟨"https://host/", []⟩ (some ⟨"abc", 7⟩) (some 42) =
      some ⟨"https://host/api/v1/organisations/7/projects/42/s3",
        [("x-api-key", "abc")]⟩ := by
  have h := C3_root_path_rewrite ("host") ("abc") 7 42 [] (by decide) (by decide)
  simpa using h

/-- C1 counterexample: with org 7, project 42 and builder-produced URI
`https://host/b1/k1` the interceptor yields
`https://host/b1/api/v1/organisations/7/projects/42/s3/b1/k1` — the `/b1`
prefix kept by the last-slash split (lib.rs 409) remains before the tenant
path — and not `https://host/api/v1/organisations/7/projects/42/s3/b1/k1`
as the claim states. -/
theorem C1_two_segment_path_counterexample :
    add_root_auth ⟨"https://host/b1/k1", []⟩ (some ⟨"abc", 7⟩) (some 42) =
      some ⟨"https://host/b1/api/v1/organisations/7/projects/42/s3/b1/k1",
        [("x-api-key", "abc")]⟩ ∧
    "https://host/b1/api/v1/organisations/7/projects/42/s3/b1/k1" ≠
      "https://host/api/v1/organisations/7/projects/42/s3/b1/k1" := by
  exact ⟨by decide, by decide⟩

/-- C1 amended: for a proxy-mode call whose original path is
`/bucket/key` (key containing no `/`), the final URI keeps everything of
the original URI up to the last `/` — i.e. `https://<host>/<bucket>` —
and appends the tenant path followed by the full original path:
`https://<host>/<bucket>/api/v1/organisations/<org>/projects/<pid>/s3/<bucket>/<key>`. -/
theorem C1_amended_rewrite_keeps_prefix (host bucket key api_key : String)
    (org pid : Int) (hdrs : List (String × String))
    (hhost : ∀ c ∈ host.data, c ≠ '/' ∧ c ≠ '?')
    (hhostA : host.data.all uriCharAllowed = true)
    (hbucket : ∀ c ∈ bucket.data, c ≠ '?')
    (hbucketA : bucket.data.all uriCharAllowed = true)
    (hkey : ∀ c ∈ key.data, c ≠ '/' ∧ c ≠ '?')
    (hkeyA : key.data.all uriCharAllowed = true) :
    add_root_auth ⟨"https://" ++ host ++ "/" ++ bucket ++ "/" ++ key, hdrs⟩
        (some ⟨api_key, org⟩) (some pid) =
      some ⟨"https://" ++ host ++ "/" ++ bucket ++ apiPath org pid ++
          "/" ++ bucket ++ "/" ++ key,
        hdrs ++ [("x-api-key", api_key)]⟩ := by
  have hp1 : ∀ c ∈ '/' :: bucket.data, c ≠ '?' := by
    intro c hc
    rcases List.mem_cons.mp hc with rfl | h
    · decide
    · exact hbucket c h
  have hrw := rewrittenUri_shaped ("https://" ++ host ++ "/" ++ bucket ++ "/" ++ key)
    host ('/' :: bucket.data) key.data none ⟨api_key, org⟩ pid
    (by simp [String.data_append, qpart]) hhost hp1 hkey (Or.inr rfl)
  have hrw2 : rewrittenUri ("https://" ++ host ++ "/" ++ bucket ++ "/" ++ key)
      ⟨api_key, org⟩ pid =
      some ("https://" ++ host ++ "/" ++ bucket ++ apiPath org pid ++
        "/" ++ bucket ++ "/" ++ key) := by
    rw [hrw]
    refine congrArg some (str_eq_of_data ?_)
    simp [String.data_append, strMk_data_eq, qpart]
  rw [add_root_auth_proxy_some _ _ _ _ _ hrw2]
  have hwf : uriWellFormed ("https://" ++ host ++ "/" ++ bucket ++
      apiPath org pid ++ "/" ++ bucket ++ "/" ++ key) = true := by
    exact uriWellFormed_append (uriWellFormed_append (uriWellFormed_append
      (uriWellFormed_append (uriWellFormed_append (uriWellFormed_append
        (uriWellFormed_append (uriWellFormed_append (by decide) hhostA)
          (by decide)) hbucketA) (apiPath_allowed org pid)) (by decide))
        hbucketA) (by decide)) hkeyA
  rw [setUri_ok _ _ hwf]

/-- Witness for the amended C1 at the spec's example inputs (org 7,
project 42, api key `abc`, URI `https://host/b1/k1`). -/
theorem C1_amended_witness :
    add_root_auth ⟨"https://host/b1/k1", []⟩ (some ⟨"abc", 7⟩) (some 42) =
      some ⟨"https://host/b1/api/v1/organisations/7/projects/42/s3/b1/k1",
        [("x-api-key", "abc")]⟩ := by
  have h := C1_amended_rewrite_keeps_prefix ("host") ("b1") ("k1") ("abc") 7 42 []
    (by decide) (by decide) (by decide) (by decide) (by decide) (by decide)
  simpa using h

/-- C2 counterexample: for the proxy-mode call with builder URI
`https://host/b2/k2` (org 7, project 42) the final URI's path is
`/b2/api/v1/organisations/7/projects/42/s3/b2/k2`, which does NOT start
with `/api/v1/organisations/7/projects/42/s3` — the path-prefix half of
the claim fails for multi-segment original paths. -/
theorem C2_path_prefix_counterexample :
    add_root_auth ⟨"https://host/b2/k2", []⟩ (some ⟨"abc", 7⟩) (some 42) =
      some ⟨"https://host/b2/api/v1/organisations/7/projects/42/s3/b2/k2",
        [("x-api-key", "abc")]⟩ ∧
    ¬ ("/api/v1/organisations/7/projects/42/s3" : String).data <+:
      (uriPath ("https://host/b2/api/v1/organisations/7/projects/42/s3/b2/k2")).data := by
  exact ⟨by decide, by decide⟩

/-- C2 amended: for proxy-mode calls with a project id whose original path
has a single `/` (root or one segment, as produced by virtual-host-style
addressing), the `x-api-key` header is appended (additively, duplicates
preserved) and the final URI path starts with
`/api/v1/organisations/<org>/projects/<pid>/s3`; for multi-segment paths
the path instead starts with the original path minus its last segment. -/
theorem C2_amended_header_and_prefix (host seg api_key : String) (org pid : Int)
    (hdrs : List (String × String))
    (hhost : ∀ c ∈ host.data, c ≠ '/' ∧ c ≠ '?')
    (hhostA : host.data.all uriCharAllowed = true)
    (hseg : ∀ c ∈ seg.data, c ≠ '/' ∧ c ≠ '?')
    (hsegA : seg.data.all uriCharAllowed = true) :
    ∃ r, add_root_auth ⟨"https://" ++ host ++ "/" ++ seg, hdrs⟩
        (some ⟨api_key, org⟩) (some pid) = some r ∧
      r.headers = hdrs ++ [("x-api-key", api_key)] ∧
      (apiPath org pid).data <+: (uriPath r.uri).data := by
  have hp2 : ∀ c ∈ seg.data, c ≠ '/' ∧ c ≠ '?' := hseg
  have hrw := rewrittenUri_shaped ("https://" ++ host ++ "/" ++ seg)
    host [] seg.data none ⟨api_key, org⟩ pid
    (by simp [String.data_append, qpart]) hhost (by simp) hp2 (Or.inl rfl)
  have htail : ∀ c ∈ (if seg.data = [] then ("") else ("/") ++ seg).data, c ≠ '?' := by
    intro c hc
    by_cases hnil : seg.data = []
    · rw [if_pos hnil] at hc
      simp at hc
    · rw [if_neg hnil, String.data_append] at hc
      rcases List.mem_append.mp hc with h | h
      · simp at h
        subst h
        decide
      · exact (hseg c h).2
  have htailA : (if seg.data = [] then ("") else ("/") ++ seg).data.all
      uriCharAllowed = true := by
    by_cases hnil : seg.data = []
    · rw [if_pos hnil]
      decide
    · rw [if_neg hnil, String.data_append]
      exact allowed_append (by decide) hsegA
  have hrw2 : rewrittenUri ("https://" ++ host ++ "/" ++ seg)
      ⟨api_key, org⟩ pid =
      some ("https://" ++ host ++
        (apiPath org pid ++ (if seg.data = [] then ("") else ("/") ++ seg))) := by
    rw [hrw]
    refine congrArg some (str_eq_of_data ?_)
    by_cases hnil : seg.data = []
    · simp [String.data_append, strMk_data_eq, qpart, hnil]
    · simp [String.data_append, strMk_data_eq, qpart, hnil]
  rw [add_root_auth_proxy_some _ _ _ _ _ hrw2]
  have hwf : uriWellFormed ("https://" ++ host ++
      (apiPath org pid ++ (if seg.data = [] then ("") else ("/") ++ seg))) = true := by
    refine uriWellFormed_append (uriWellFormed_append (by decide) hhostA) ?_
    rw [String.data_append]
    exact allowed_append (apiPath_allowed org pid) htailA
  rw [setUri_ok _ _ hwf]
  refine ⟨_, rfl, rfl, ?_⟩
  rw [uriPath_rewritten host _ org pid hhost htail]
  exact ⟨(if seg.data = [] then ("") else ("/") ++ seg).data,
    (String.data_append _ _).symm⟩

/-- Witness for the amended C2: org 7, project 42, api key `abc`,
virtual-host style URI `https://host/k1`. -/
theorem C2_amended_witness :
    ∃ r, add_root_auth ⟨"https://host/k1", []⟩ (some ⟨"abc", 7⟩) (some 42) =
        some r ∧
      r.headers = [("x-api-key", "abc")] ∧
      (apiPath 7 42).data <+: (uriPath r.uri).data := by
  have h := C2_amended_header_and_prefix ("host") ("k1") ("abc") 7 42 []
    (by decide) (by decide) (by decide) (by decide)
  simpa using h

/-- C5: for every call — any mode, rewritten or not — on a canonical
request URI `https://<host><path>[?query]`, the URI left on the request by
the interceptor ends with the original query string `?X` unchanged when
one is present (lib.rs 432-434), and contains no `?` at all when none is
present. -/
theorem C5_query_preserved (host : String) (p1 p2 : List Char) (q : Option String)
    (hdrs : List (String × String)) (cfg : Option RootConfig) (pid : Option Int)
    (hhost : ∀ c ∈ host.data, c ≠ '/' ∧ c ≠ '?')
    (hp1 : ∀ c ∈ p1, c ≠ '?')
    (hp2 : ∀ c ∈ p2, c ≠ '/' ∧ c ≠ '?')
    (hstart : p1 = [] ∨ p1.head? = some '/')
    (r : Request)
    (hr : add_root_auth
        ⟨"https://" ++ host ++ String.mk (p1 ++ '/' :: p2) ++ qpart q, hdrs⟩
        cfg pid = some r) :
    (∀ x, q = some x → ∃ pre, r.uri.data = pre ++ '?' :: x.data) ∧
    (q = none → '?' ∉ r.uri.data) := by
  have horig : (∀ x, q = some x →
      ∃ pre, ("https://" ++ host ++ String.mk (p1 ++ '/' :: p2) ++ qpart q).data
        = pre ++ '?' :: x.data) ∧
      (q = none →
        '?' ∉ ("https://" ++ host ++ String.mk (p1 ++ '/' :: p2) ++ qpart q).data) := by
    constructor
    · rintro x rfl
      refine ⟨("https://" ++ host ++ String.mk (p1 ++ '/' :: p2)).data, ?_⟩
      simp [qpart, String.data_append]
    · rintro rfl hc
      have hc' : '?' ∈ ("https://".data ++ host.data) ++ (p1 ++ '/' :: p2) := by
        simpa [qpart, String.data_append, strMk_data_eq] using hc
      rcases List.mem_append.mp hc' with h | h
      · rcases List.mem_append.mp h with h | h
        · exact absurd h (by decide)
        · exact (hhost _ h).2 rfl
      · rcases List.mem_append.mp h with h | h
        · exact hp1 _ h rfl
        · rcases List.mem_cons.mp h with h | h
          · exact absurd h (by decide)
          · exact (hp2 _ h).2 rfl
  cases cfg with
  | none =>
    rw [add_root_auth_no_cfg] at hr
    rw [← Option.some.inj hr]
    exact horig
  | some c =>
    cases pid with
    | none =>
      rw [add_root_auth_no_pid] at hr
      rw [← Option.some.inj hr]
      exact horig
    | some pidv =>
      have hrw := rewrittenUri_shaped
        ("https://" ++ host ++ String.mk (p1 ++ '/' :: p2) ++ qpart q)
        host p1 p2 q c pidv (by simp [String.data_append, strMk_data_eq])
        hhost hp1 hp2 hstart
      rw [add_root_auth_proxy_some _ _ _ _ _ hrw] at hr
      by_cases hwf : uriWellFormed (String.mk ("https://".data ++ host.data ++ p1) ++
          apiPath c.org_id pidv ++
          (if p1 = [] ∧ p2 = [] then ("") else String.mk (p1 ++ '/' :: p2)) ++
          qpart q) = true
      · rw [setUri_ok _ _ hwf] at hr
        rw [← Option.some.inj hr]
        constructor
        · rintro x rfl
          refine ⟨(String.mk ("https://".data ++ host.data ++ p1) ++
            apiPath c.org_id pidv ++
            (if p1 = [] ∧ p2 = [] then ("") else String.mk (p1 ++ '/' :: p2))).data, ?_⟩
          simp [qpart, String.data_append]
        · rintro rfl hc
          have hc' : '?' ∈ (("https://".data ++ host.data ++ p1) ++
              (apiPath c.org_id pidv).data) ++
              (if p1 = [] ∧ p2 = [] then ("") else String.mk (p1 ++ '/' :: p2)).data := by
            simpa [qpart, String.data_append, strMk_data_eq] using hc
          rcases List.mem_append.mp hc' with h | h
          · rcases List.mem_append.mp h with h | h
            · rcases List.mem_append.mp h with h | h
              · rcases List.mem_append.mp h with h | h
                · exact absurd h (by decide)
                · exact (hhost _ h).2 rfl
              · exact hp1 _ h rfl
            · exact apiPath_no_q c.org_id pidv _ h rfl
          · by_cases hnil : p1 = [] ∧ p2 = []
            · rw [if_pos hnil] at h
              simp at h
            · rw [if_neg hnil, strMk_data_eq] at h
              rcases List.mem_append.mp h with h | h
              · exact hp1 _ h rfl
              · rcases List.mem_cons.mp h with h | h
                · exact absurd h (by decide)
                · exact (hp2 _ h).2 rfl
      · rw [setUri_fail _ _ (by simpa using hwf)] at hr
        rw [← Option.some.inj hr]
        exact horig

/-- Witness for C5: org 7, project 42, URI `https://host/b1?x=1`; the final
URI ends with `?x=1` unchanged. -/
theorem C5_query_witness :
    ∃ pre, ("https://host/api/v1/organisations/7/projects/42/s3/b1?x=1" : String).data
      = pre ++ '?' :: ("x=1" : String).data := by
  have h := C5_query_preserved ("host") [] ("b1".data) (some ("x=1")) []
    (some ⟨"abc", 7⟩) (some 42) (by decide) (by decide) (by decide)
    (Or.inl rfl)
    ⟨"https://host/api/v1/organisations/7/projects/42/s3/b1?x=1",
      [("x-api-key", "abc")]⟩
    (by decide)
  exact h.1 "x=1" rfl

/-- C6 counterexample: on a request whose URI contains a space, the
reconstructed URI is rejected by `set_uri`, but the interceptor — whose
source discards that error with `let _ = req.set_uri(new_uri)`
(lib.rs 436) — returns normally and the request is silently left with its
original, un-rewritten URI (header already appended): the call is NOT
aborted, contradicting the claim. -/
theorem C6_seturi_failure_counterexample :
    rewrittenUri ("https://ho st/b1") ⟨"abc", 7⟩ 42 =
      some ("https://ho st/api/v1/organisations/7/projects/42/s3/b1") ∧
    uriWellFormed ("https://ho st/api/v1/organisations/7/projects/42/s3/b1") = false ∧
    add_root_auth ⟨"https://ho st/b1", []⟩ (some ⟨"abc", 7⟩) (some 42) =
      some ⟨"https://ho st/b1", [("x-api-key", "abc")]⟩ := by
  exact ⟨by decide, by decide, by decide⟩

/-- C6 amended: when installing the rewritten URI on the request fails,
the error is discarded: `add_root_auth` returns normally and the request
keeps its original URI with the `x-api-key` header already appended — it
is silently sent un-rewritten rather than aborted (only the base-url
`rsplit_once(..).unwrap()` aborts, by panicking, when the URI has no
slash). -/
theorem C6_amended_seturi_failure_ignored (uri : String)
    (hdrs : List (String × String)) (cfg : RootConfig) (pid : Int) (u : String)
    (hrw : rewrittenUri uri cfg pid = some u)
    (hbad : uriWellFormed u = false) :
    add_root_auth ⟨uri, hdrs⟩ (some cfg) (some pid) =
      some ⟨uri, hdrs ++ [("x-api-key", cfg.api_key)]⟩ := by
  rw [add_root_auth_proxy_some _ _ _ _ _ hrw, setUri_fail _ _ hbad]

/-- Witness for the amended C6 at the space-containing URI. -/
theorem C6_amended_witness :
    add_root_auth ⟨"https://ho st/b1", [("a", "b")]⟩ (some ⟨"k", 1⟩) (some 2) =
      some ⟨"https://ho st/b1", [("a", "b"), ("x-api-key", "k")]⟩ := by
  have h := C6_amended_seturi_failure_ignored ("https://ho st/b1") [("a", "b")]
    ⟨"k", 1⟩ 2 ("https://ho st/api/v1/organisations/1/projects/2/s3/b1")
    (by decide) (by decide)
  simpa using h

/-- C7 (code bug): `get_s3_client` (lib.rs 121-136) has no fallible step —
`endpoint_url` stores the string unvalidated — so both constructors accept
EVERY url string and `Error::InvalidUrl` is never returned, contradicting
the claim and `Client::new`'s own doc comment ("or an `Error` if the URL
is invalid", lib.rs 88). In particular the plainly invalid endpoint
`"not a url"` is accepted. -/
theorem C7_invalid_url_never_rejected :
    (∀ url api_key : String, ∀ org : Int,
      Client.new url api_key org =
        .ok ⟨⟨url, "weur", ⟨"", "", none, none, ""⟩⟩, some ⟨api_key, org⟩,
          MAX_CONCURRENT⟩) ∧
    (∀ url : String, ∀ cred : S3Credentials,
      Client.new_from_s3_credentials url cred =
        .ok ⟨⟨url, "weur", ⟨cred.access_key_id, cred.secret_access_key,
          none, none, ""⟩⟩, none, MAX_CONCURRENT⟩) ∧
    Client.new ("not a url") ("abc") 7 =
      .ok ⟨⟨"not a url", "weur", ⟨"", "", none, none, ""⟩⟩, some ⟨"abc", 7⟩,
        MAX_CONCURRENT⟩ :=
  ⟨fun _ _ _ => rfl, fun _ _ => rfl, rfl⟩

/-- C8 counterexample: a direct-mode credential bundle carrying a session
token, an expiration and a region is NOT passed through —
`Credentials::new(.., None, None, "")` drops the token and expiration and
the region is hardcoded to `weur` (lib.rs 123, 130), contradicting the
claim that all supplied fields are used. -/
theorem C8_credentials_dropped_counterexample :
    get_s3_client ("https://host")
        (some ⟨"AK", "SK", some ("TOK"), some ("2099-01-01T00:00:00Z"), "eu-west-1"⟩) =
      .ok ⟨"https://host", "weur", ⟨"AK", "SK", none, none, ""⟩⟩ ∧
    (⟨"AK", "SK", none, none, ""⟩ : Credentials).session_token ≠ some ("TOK") ∧
    ("weur" : String) ≠ "eu-west-1" :=
  ⟨rfl, by decide, by decide⟩

/-- C8 amended: the direct-mode constructor passes only the access key id
and the secret access key to the underlying client; the session token and
expiration are replaced by `None`, the provider name is empty, and the
region is hardcoded to `weur` regardless of the bundle's region; the
resulting client carries no proxy config. -/
theorem C8_amended_credentials_passed (url : String) (cred : S3Credentials) :
    get_s3_client url (some cred) =
      .ok ⟨url, "weur", ⟨cred.access_key_id, cred.secret_access_key,
        none, none, ""⟩⟩ ∧
    Client.new_from_s3_credentials url cred =
      .ok ⟨⟨url, "weur", ⟨cred.access_key_id, cred.secret_access_key,
        none, none, ""⟩⟩, none, MAX_CONCURRENT⟩ :=
  ⟨rfl, rfl⟩

/-- C9: the gate capacity is fixed at `MAX_CONCURRENT = 20` by both
constructors; in every reachable gate state at most 20 operations hold a
slot; when 20 are in flight no further acquisition step is enabled (no
permit is available, so a 21st caller waits); and any step that lowers the
in-flight count is a completion — successful or failed alike — that
releases its permit. -/
theorem C9_gate_capacity_and_invariant :
    MAX_CONCURRENT = 20 ∧
    (∀ url api_key : String, ∀ org : Int, ∀ c : Client,
      Client.new url api_key org = .ok c →
        c.semaphoreCapacity = MAX_CONCURRENT) ∧
    (∀ url : String, ∀ cred : S3Credentials, ∀ c : Client,
      Client.new_from_s3_credentials url cred = .ok c →
        c.semaphoreCapacity = MAX_CONCURRENT) ∧
    (∀ n : Nat, ∀ s : GateState, GateReachable n s →
      inflightCount s ≤ MAX_CONCURRENT) ∧
    (∀ n : Nat, ∀ s : GateState, GateReachable n s →
      inflightCount s = MAX_CONCURRENT → s.permits = 0) ∧
    (∀ s s' : GateState, GateStep s s' → inflightCount s' < inflightCount s →
      s'.permits = s.permits + 1) := by
  refine ⟨rfl, ?_, ?_, ?_, ?_, ?_⟩
  · intro url k o c h
    rw [← Except.ok.inj h]
  · intro url cred c h
    rw [← Except.ok.inj h]
  · intro n s h
    have := gate_invariant n s h
    omega
  · intro n s h hfull
    have := gate_invariant n s h
    omega
  · intro s s' hstep hlt
    cases hstep with
    | acquire i hi hp =>
      have hc := countP_set_incr Phase.inflight
        Phase.isInflight hi rfl rfl
      simp only [inflightCount] at hlt
      rw [hc] at hlt
      omega
    | finish i ok hi => rfl

/-- Witness for C9: the initial gate state with 3 pending calls is
reachable and satisfies the bound. -/
theorem C9_gate_witness : inflightCount (initGate 3) ≤ MAX_CONCURRENT :=
  C9_gate_capacity_and_invariant.2.2.2.1 3 (initGate 3)
    Relation.ReflTransGen.refl

